import Mathlib

set_option maxHeartbeats 1000000
set_option maxRecDepth 4096

/-! Verification of an Inertia.js adapter for FastAPI: request header
negotiation, prop building (partial renders, deferred and merge props),
redirect-normalising middleware, JSON page serialisation and the SSR
fallback path.  Python dicts are modelled as insertion-ordered association
lists, producers (callables) carry an identifier resolved through an
explicit environment, and header lookup is a partial map from header name
to value. -/

/-- Scalar JSON-serialisable Python values (not containers, not callables). -/
inductive JScalar where
  | snull
  | sbool (b : Bool)
  | snum (n : Int)
  | sstr (s : String)
deriving DecidableEq, Repr

/-- Python values occurring as props: scalars, bare callables (producers,
identified by an id whose invocation result an environment supplies), lists,
insertion-ordered dicts, and the prop variant classes of prop_classes.py:
OptionalProp, DeferredProp(prop, group, merge) and MergeProp. -/
inductive PVal where
  | atom (s : JScalar)
  | func (n : Nat)
  | vlist (vs : List PVal)
  | vdict (kvs : List (String × PVal))
  | optionalP (p : PVal)
  | deferredP (p : PVal) (group : String) (merge : Bool)
  | mergeP (p : PVal)

/-- Python callable(v): the CallableProp subclasses and bare callables are
callable; plain scalars, lists and dicts are not. -/
def isCallable : PVal → Bool
  | .func _ => true
  | .optionalP _ => true
  | .deferredP _ _ _ => true
  | .mergeP _ => true
  | _ => false

/-- Python isinstance(v, IgnoreOnFirstLoadProp): OptionalProp and DeferredProp
both subclass the marker class. -/
def isIgnoreOnFirstLoad : PVal → Bool
  | .optionalP _ => true
  | .deferredP _ _ _ => true
  | _ => false

/-- Python isinstance(v, MergeableProp) and v.should_merge(): DeferredProp
reports its merge flag, MergeProp always reports true. -/
def declaresMerge : PVal → Bool
  | .deferredP _ _ m => m
  | .mergeP _ => true
  | _ => false

/-- Python isinstance(v, DeferredProp). -/
def isDeferred : PVal → Bool
  | .deferredP _ _ _ => true
  | _ => false

/-- CallableProp call semantics: self.prop() if callable(self.prop) else
self.prop; a bare callable consults the environment for its result, which is
returned without further transformation.  Non-callable arguments are returned
unchanged. -/
def callProp (env : Nat → PVal) : PVal → PVal
  | .func n => env n
  | .optionalP p => if isCallable p then callProp env p else p
  | .deferredP p _ _ => if isCallable p then callProp env p else p
  | .mergeP p => if isCallable p then callProp env p else p
  | v => v

/-- CallableProp call instrumented with the list of producer ids consulted,
in invocation order. -/
def callPropT (env : Nat → PVal) : PVal → PVal × List Nat
  | .func n => (env n, [n])
  | .optionalP p => if isCallable p then callPropT env p else (p, [])
  | .deferredP p _ _ => if isCallable p then callPropT env p else (p, [])
  | .mergeP p => if isCallable p then callPropT env p else (p, [])
  | v => (v, [])

mutual
/-- helpers.deep_transform_callables: if the value is not a dict, invoke it
when callable and return it otherwise (lists fall through untouched); for a
dict, transform every value in place. -/
def deep_transform_callables (env : Nat → PVal) : PVal → PVal
  | .vdict kvs => .vdict (transformEntries env kvs)
  | .atom s => .atom s
  | .vlist vs => .vlist vs
  | .func n => callProp env (.func n)
  | .optionalP p => callProp env (.optionalP p)
  | .deferredP p g m => callProp env (.deferredP p g m)
  | .mergeP p => callProp env (.mergeP p)

/-- Value-wise transform of the entries of a dict. -/
def transformEntries (env : Nat → PVal) : List (String × PVal) → List (String × PVal)
  | [] => []
  | (k, v) :: rest => (k, deep_transform_callables env v) :: transformEntries env rest
end

mutual
/-- deep_transform_callables instrumented with the producer ids invoked, in
invocation order. -/
def deepTransformTraced (env : Nat → PVal) : PVal → PVal × List Nat
  | .vdict kvs =>
      let r := transformEntriesTraced env kvs
      (.vdict r.1, r.2)
  | .atom s => (.atom s, [])
  | .vlist vs => (.vlist vs, [])
  | .func n => callPropT env (.func n)
  | .optionalP p => callPropT env (.optionalP p)
  | .deferredP p g m => callPropT env (.deferredP p g m)
  | .mergeP p => callPropT env (.mergeP p)

/-- Entry-wise traced transform of the entries of a dict. -/
def transformEntriesTraced (env : Nat → PVal) :
    List (String × PVal) → List (String × PVal) × List Nat
  | [] => ([], [])
  | (k, v) :: rest =>
      let hd := deepTransformTraced env v
      let tl := transformEntriesTraced env rest
      ((k, hd.1) :: tl.1, hd.2 ++ tl.2)
end

mutual
/-- Producer occurrences that the deep transform resolves: producers reached
through dict values and through chains of callable wrappers; producers buried
inside lists, or wrapped around non-callable payloads, are not reached. -/
def resolvedFuncs : PVal → List Nat
  | .atom _ => []
  | .func n => [n]
  | .vlist _ => []
  | .vdict kvs => resolvedFuncsEntries kvs
  | .optionalP p => if isCallable p then resolvedFuncs p else []
  | .deferredP p _ _ => if isCallable p then resolvedFuncs p else []
  | .mergeP p => if isCallable p then resolvedFuncs p else []

/-- Producer occurrences resolved across the entries of a dict. -/
def resolvedFuncsEntries : List (String × PVal) → List Nat
  | [] => []
  | (_, v) :: rest => resolvedFuncs v ++ resolvedFuncsEntries rest
end

/-- Python d[k] = v on an insertion-ordered association list: overwrite in
place when the key is present, append otherwise. -/
def dset {α : Type} (l : List (String × α)) (k : String) (v : α) :
    List (String × α) :=
  if l.any (fun kv => kv.1 == k) then
    l.map (fun kv => if kv.1 == k then (k, v) else kv)
  else l ++ [(k, v)]

/-- Python dict built by inserting a sequence of pairs into a fresh dict. -/
def dlit {α : Type} (l : List (String × α)) : List (String × α) :=
  l.foldl (fun acc kv => dset acc kv.1 kv.2) []

/-- Python dict-literal merge of two dicts (later entries win, first
insertion position is kept). -/
def dictUpdate {α : Type} (a b : List (String × α)) : List (String × α) :=
  dlit (a ++ b)

/-- Python d.get(k): the value of the first entry carrying the key. -/
def dget {α : Type} (l : List (String × α)) (k : String) : Option α :=
  (l.find? (fun kv => kv.1 == k)).map (fun kv => kv.2)

/-- Python del d[k]. -/
def ddel {α : Type} (l : List (String × α)) (k : String) : List (String × α) :=
  l.filter (fun kv => kv.1 != k)

/-- Request headers as a name/value map. -/
abbrev Headers := List (String × String)

/-- Prop maps handed to the page builder. -/
abbrev Props := List (String × PVal)

/-- InertiaRequest.is_inertia: the X-Inertia marker header is present. -/
def is_inertia (hs : Headers) : Bool :=
  (dget hs "X-Inertia").isSome

/-- InertiaRequest.is_a_partial_render: the partial-data header is present
and the partial-component header (empty string when missing) equals the
component name exactly. -/
def is_a_partial_render (hs : Headers) (component : String) : Bool :=
  (dget hs "X-Inertia-Partial-Data").isSome
    && ((dget hs "X-Inertia-Partial-Component").getD "" == component)

/-- Python str.split(",") on the character list: fields between comma
occurrences, empty fields preserved, the empty input producing the single
empty field. -/
def split_commas_chars : List Char → List (List Char)
  | [] => [[]]
  | c :: rest =>
      if c = ',' then [] :: split_commas_chars rest
      else
        match split_commas_chars rest with
        | [] => [[c]]
        | f :: fs => (c :: f) :: fs

/-- Python str.split(","): comma split with no trimming. -/
def split_commas (s : String) : List String :=
  (split_commas_chars s.toList).map List.asString

/-- InertiaRequest.partial_keys: comma split of the partial-data header value
(empty string when missing), with no trimming. -/
def partial_keys (hs : Headers) : List String :=
  split_commas ((dget hs "X-Inertia-Partial-Data").getD "")

/-- InertiaRequest.reset_keys: comma split of the reset header value. -/
def reset_keys (hs : Headers) : List String :=
  split_commas ((dget hs "X-Inertia-Reset").getD "")

/-- The per-key inclusion filter inside InertiaResponse._build_props: on a
matching partial render keep exactly the requested keys, otherwise drop the
ignore-on-first-load variants. -/
def props_filter (hs : Headers) (component : String) (merged : Props) : Props :=
  merged.filter fun kv =>
    if is_a_partial_render hs component then (partial_keys hs).contains kv.1
    else !(isIgnoreOnFirstLoad kv.2)

/-- InertiaResponse._build_props: merge shared state under handler props,
apply the inclusion filter, then deep-transform callables. -/
def build_props (env : Nat → PVal) (hs : Headers) (component : String)
    (shared props : Props) : Props :=
  transformEntries env (props_filter hs component (dictUpdate shared props))

/-- InertiaResponse._build_props instrumented with the producer invocations
performed during the final transform. -/
def build_props_traced (env : Nat → PVal) (hs : Headers) (component : String)
    (shared props : Props) : Props × List Nat :=
  transformEntriesTraced env (props_filter hs component (dictUpdate shared props))

/-- Python d.setdefault(group, []).append(key) on the manifest dict. -/
def add_to_group (m : List (String × List String)) (g k : String) :
    List (String × List String) :=
  match dget m g with
  | some ks => dset m g (ks ++ [k])
  | none => m ++ [(g, [k])]

/-- Loop body of InertiaResponse._build_deferred_props: a DeferredProp key is
appended to its group, every other value is skipped. -/
def deferred_step (acc : List (String × List String)) (kv : String × PVal) :
    List (String × List String) :=
  match kv.2 with
  | .deferredP _ g _ => add_to_group acc g kv.1
  | _ => acc

/-- The grouping loop of _build_deferred_props over the handler props. -/
def collect_deferred (props : Props) : List (String × List String) :=
  props.foldl deferred_step []

/-- InertiaResponse._build_deferred_props: none on a matching partial render,
otherwise the DeferredProp keys of the handler props grouped by group name
(none again when no prop is deferred). -/
def build_deferred_props (hs : Headers) (component : String) (props : Props) :
    Option (List (String × List String)) :=
  if is_a_partial_render hs component then none
  else
    let m := collect_deferred props
    if m.isEmpty then none else some m

/-- InertiaResponse._build_merge_props: keys of the handler props whose value
is a MergeableProp that should merge and that are not listed in the reset
header. -/
def build_merge_props (hs : Headers) (props : Props) : List String :=
  (props.filter fun kv =>
    declaresMerge kv.2 && !((reset_keys hs).contains kv.1)).map Prod.fst

/-- Page object assembled by InertiaResponse._build_page_data; the optional
fields are absent (not null) when empty. -/
structure PageData where
  component : String
  props : Props
  url : String
  version : String
  encryptHistory : Bool
  clearHistory : Bool
  deferredProps : Option (List (String × List String))
  mergeProps : Option (List String)

/-- InertiaResponse._build_page_data.  The session is always empty in the
source, so clearHistory is the popped default False; encryptHistory is the
validated request-state override or settings default, passed here as a
boolean. -/
def build_page_data (env : Nat → PVal) (hs : Headers)
    (component url version : String) (encryptHistory : Bool)
    (shared props : Props) : PageData :=
  { component := component
    props := build_props env hs component shared props
    url := url
    version := version
    encryptHistory := encryptHistory
    clearHistory := false
    deferredProps := build_deferred_props hs component props
    mergeProps :=
      let m := build_merge_props hs props
      if m.isEmpty then none else some m }

/-- JSON values, used for the serialised page object and template contexts. -/
inductive J where
  | jnull
  | jbool (b : Bool)
  | jnum (n : Int)
  | jstr (s : String)
  | jarr (xs : List J)
  | jobj (kvs : List (String × J))

/-- View of a scalar as a JSON value. -/
def JScalar.toJ : JScalar → J
  | .snull => .jnull
  | .sbool b => .jbool b
  | .snum n => .jnum n
  | .sstr s => .jstr s

/-- JSON string escaping for quote and backslash (the concrete strings used
here contain no control characters or non-ASCII text). -/
def jescapeChar (c : Char) : String :=
  if c = '"' then "\\\"" else if c = '\\' then "\\\\" else String.singleton c

/-- Escape every character of a string for a JSON string literal. -/
def jescape (s : String) : String :=
  String.join (s.toList.map jescapeChar)

mutual
/-- JSON serialisation parameterised by the item and key separators, covering
both json.dumps defaults (", " and ": ", used by the module-level encode) and
the compact separators ("," and ":") used by the framework JSON response. -/
def jsonEncodeWith (isep ksep : String) : J → String
  | .jnull => "null"
  | .jbool b => if b then "true" else "false"
  | .jnum n => toString n
  | .jstr s => "\"" ++ jescape s ++ "\""
  | .jarr xs => "[" ++ jsonEncodeItems isep ksep xs ++ "]"
  | .jobj kvs => "\x7b" ++ jsonEncodeFields isep ksep kvs ++ "\x7d"

/-- Array items joined by the item separator. -/
def jsonEncodeItems (isep ksep : String) : List J → String
  | [] => ""
  | [x] => jsonEncodeWith isep ksep x
  | x :: y :: rest =>
      jsonEncodeWith isep ksep x ++ isep ++ jsonEncodeItems isep ksep (y :: rest)

/-- Object fields joined by the separators. -/
def jsonEncodeFields (isep ksep : String) : List (String × J) → String
  | [] => ""
  | [kv] => "\"" ++ jescape kv.1 ++ "\"" ++ ksep ++ jsonEncodeWith isep ksep kv.2
  | kv :: kw :: rest =>
      "\"" ++ jescape kv.1 ++ "\"" ++ ksep ++ jsonEncodeWith isep ksep kv.2
        ++ isep ++ jsonEncodeFields isep ksep (kw :: rest)
end

/-- json.dumps with default separators, as called in InertiaResponse to
serialise the page data. -/
def json_encode (j : J) : String := jsonEncodeWith ", " ": " j

/-- The framework JSONResponse body rendering: json.dumps of the content
argument with compact separators.  Passing a string content therefore
produces a JSON string literal, not the string itself. -/
def jsonResponseRender (j : J) : String := jsonEncodeWith "," ":" j

mutual
/-- json.dumps serialisability of a prop value under the repository JSON
encoder: scalars, lists and dicts serialise; callables and the prop variant
wrappers have no encoding and raise TypeError, modelled as none. -/
def pvalToJson : PVal → Option J
  | .atom s => some s.toJ
  | .func _ => none
  | .vlist vs => (pvalListToJson vs).map J.jarr
  | .vdict kvs => (pvalEntriesToJson kvs).map J.jobj
  | .optionalP _ => none
  | .deferredP _ _ _ => none
  | .mergeP _ => none

/-- Serialise every element of a list. -/
def pvalListToJson : List PVal → Option (List J)
  | [] => some []
  | v :: rest =>
      match pvalToJson v, pvalListToJson rest with
      | some j, some js => some (j :: js)
      | _, _ => none

/-- Serialise every entry of a dict. -/
def pvalEntriesToJson : List (String × PVal) → Option (List (String × J))
  | [] => some []
  | (k, v) :: rest =>
      match pvalToJson v, pvalEntriesToJson rest with
      | some j, some js => some ((k, j) :: js)
      | _, _ => none
end

/-- Page object as a JSON value, with the optional fields appended only when
present, in the insertion order of _build_page_data. -/
def page_to_json (p : PageData) : Option J :=
  (pvalEntriesToJson p.props).map fun pj =>
    J.jobj
      ([("component", J.jstr p.component), ("props", J.jobj pj),
        ("url", J.jstr p.url), ("version", J.jstr p.version),
        ("encryptHistory", J.jbool p.encryptHistory),
        ("clearHistory", J.jbool p.clearHistory)]
        ++ (match p.deferredProps with
            | some m =>
                [("deferredProps",
                  J.jobj (m.map fun gk => (gk.1, J.jarr (gk.2.map J.jstr))))]
            | none => [])
        ++ (match p.mergeProps with
            | some l => [("mergeProps", J.jarr (l.map J.jstr))]
            | none => []))

/-- HTTP response surface relevant here: status code, headers and body. -/
structure Resp where
  status_code : Nat
  headers : List (String × String)
  body : String

/-- http.location: a 409 Conflict response carrying X-Inertia-Location. -/
def location (url : String) : Resp :=
  { status_code := 409, headers := [("X-Inertia-Location", url)], body := "" }

/-- InertiaMiddleware._is_redirect_response: status 301 or 302. -/
def is_redirect_response (r : Resp) : Bool :=
  r.status_code == 301 || r.status_code == 302

/-- InertiaMiddleware._is_non_get_redirect: a redirect response produced by a
PUT, PATCH or DELETE request. -/
def is_non_get_redirect (method : String) (r : Resp) : Bool :=
  is_redirect_response r
    && (method == "PUT" || method == "PATCH" || method == "DELETE")

/-- InertiaMiddleware._is_stale: the version header (empty string when
missing) differs from the configured version. -/
def is_stale (hs : Headers) (version : String) : Bool :=
  !((dget hs "X-Inertia-Version").getD "" == version)

/-- InertiaMiddleware.dispatch after call_next: rewrite non-GET redirects to
303, convert remaining redirects of Inertia requests to the 409 form with
X-Inertia-Location set and Location removed, pass everything else through. -/
def middleware_post (method : String) (hs : Headers) (response : Resp) : Resp :=
  if is_inertia hs then
    if is_non_get_redirect method response then
      { response with status_code := 303 }
    else if is_redirect_response response then
      let location_url := (dget response.headers "Location").getD "/"
      let r1 : Resp :=
        { response with
          status_code := 409
          headers := dset response.headers "X-Inertia-Location" location_url }
      { r1 with
        headers :=
          if (dget r1.headers "Location").isSome then ddel r1.headers "Location"
          else r1.headers }
    else response
  else response

/-- InertiaMiddleware.dispatch: the stale-version pre-pass followed by the
post-pass; the boolean records whether call_next (application code) ran. -/
def middleware_dispatch (version method url : String) (hs : Headers)
    (appResp : Resp) : Resp × Bool :=
  if is_inertia hs && method == "GET" && is_stale hs version then
    (location url, false)
  else
    (middleware_post method hs appResp, true)

/-- InertiaResponse.__call__ on a request carrying the X-Inertia marker:
serialise the page data, then hand the already-encoded string to the
framework JSONResponse together with the response status and the protocol
headers merged over the user headers.  none models the TypeError raised when
the page data is not JSON-serialisable. -/
def inertia_json_response (env : Nat → PVal) (hs : Headers)
    (component url version : String) (encryptHistory : Bool)
    (shared props : Props) (status_code : Nat)
    (user_headers : List (String × String)) : Option Resp :=
  let page := build_page_data env hs component url version encryptHistory shared props
  (page_to_json page).map fun pj =>
    let data := json_encode pj
    { status_code := status_code
      headers := dictUpdate user_headers
        [("Vary", "X-Inertia"), ("X-Inertia", "true"),
         ("Content-Type", "application/json")]
      body := jsonResponseRender (J.jstr data) }

/-- Outcome of the SSR POST, as observed inside the try block: a parsed JSON
object context on success, or any of the failure modes the spec names
(requests exception, raise_for_status on a non-success code, or a body that
does not parse into a mapping), all of which raise inside the try. -/
inductive SsrOutcome where
  | ok (ctx : List (String × J))
  | networkError
  | httpErrorStatus (code : Nat)
  | malformedBody

/-- InertiaResponse._build_first_load_context_and_template: with SSR enabled,
use the SSR context merged under template_data and the SSR template on
success; on any exception fall through to the client-side context, the page
JSON string under the key "page" merged under template_data, with the client
template. -/
def build_first_load_context_and_template (ssrEnabled : Bool)
    (ssr : SsrOutcome) (template_data : List (String × J)) (data : String) :
    List (String × J) × String :=
  if ssrEnabled then
    match ssr with
    | .ok ctx => (dictUpdate ctx template_data, "inertia_ssr.html")
    | _ => (dictUpdate [("page", J.jstr data)] template_data, "inertia.html")
  else
    (dictUpdate [("page", J.jstr data)] template_data, "inertia.html")

/-- Failure outcomes of the SSR call (anything raising inside the try). -/
def SsrOutcome.isFailure : SsrOutcome → Bool
  | .ok _ => false
  | _ => true

/-- Group names declared by the DeferredProp values of a prop map, one
occurrence per deferred key, in key order (from the spec wording of the
deferred manifest). -/
def deferred_group_occurrences (props : Props) : List String :=
  props.filterMap fun kv =>
    match kv.2 with
    | .deferredP _ g _ => some g
    | _ => none

/-- Keys of the props deferred into a given group, in declaration order
(from the spec wording of the deferred manifest). -/
def deferred_keys (props : Props) (g : String) : List String :=
  (props.filter fun kv =>
    match kv.2 with
    | .deferredP _ g' _ => g' == g
    | _ => false).map Prod.fst

/-- First-seen-order deduplication of a list (from the spec wording of the
deferred manifest ordering). -/
def first_seen (l : List String) : List String :=
  l.foldl (fun gs g => if gs.contains g then gs else gs ++ [g]) []


/-- A list none of whose keys matches k has no entry found for k. -/
theorem find?_key_eq_none {α : Type} {l : List (String × α)} {k : String}
    (h : l.any (fun kv => kv.1 == k) = false) :
    l.find? (fun kv => kv.1 == k) = none := by
  rw [List.find?_eq_none]
  intro x hx
  have := List.any_eq_false.mp h x hx
  simpa using this

/-- Overwriting every entry of the key makes the first find return the new
pair, provided the key occurs. -/
theorem find?_overwrite {α : Type} (l : List (String × α)) (k : String) (v : α)
    (h : l.any (fun kv => kv.1 == k) = true) :
    (l.map (fun kv => if kv.1 == k then (k, v) else kv)).find?
      (fun kv => kv.1 == k) = some (k, v) := by
  induction l with
  | nil => simp at h
  | cons kv rest ih =>
      rw [List.map_cons]
      by_cases hk : (kv.1 == k) = true
      · rw [if_pos hk]
        simp only [List.find?_cons, beq_self_eq_true]
      · rw [Bool.not_eq_true] at hk
        rw [if_neg (by simp [hk])]
        simp only [List.find?_cons, hk]
        simp only [List.any_cons, hk, Bool.false_or] at h
        exact ih h

/-- Overwriting the entries of one key does not change the first find of a
different key. -/
theorem find?_overwrite_other {α : Type} (l : List (String × α))
    (k k' : String) (v : α) (h : k' ≠ k) :
    (l.map (fun kv => if kv.1 == k' then (k', v) else kv)).find?
      (fun kv => kv.1 == k) = l.find? (fun kv => kv.1 == k) := by
  induction l with
  | nil => rfl
  | cons kv rest ih =>
      rw [List.map_cons]
      by_cases hk : (kv.1 == k') = true
      · have hkv : kv.1 = k' := beq_iff_eq.mp hk
        have h1 : (k' == k) = false := by simp [h]
        have h2 : (kv.1 == k) = false := by simp [hkv, h]
        rw [if_pos hk]
        simp only [List.find?_cons, h1, h2]
        exact ih
      · rw [Bool.not_eq_true] at hk
        rw [if_neg (by simp [hk])]
        by_cases h3 : (kv.1 == k) = true
        · simp only [List.find?_cons, h3]
        · rw [Bool.not_eq_true] at h3
          simp only [List.find?_cons, h3]
          exact ih

/-- Looking up the key just set yields the value just set. -/
theorem dget_dset_self {α : Type} (l : List (String × α)) (k : String) (v : α) :
    dget (dset l k v) k = some v := by
  unfold dset
  by_cases h : l.any (fun kv => kv.1 == k) = true
  · rw [if_pos h]
    unfold dget
    rw [find?_overwrite l k v h]
    rfl
  · rw [if_neg h]
    rw [Bool.not_eq_true] at h
    unfold dget
    rw [List.find?_append, find?_key_eq_none h]
    simp only [List.find?_cons, beq_self_eq_true, Option.none_or, Option.map_some]
    rfl

/-- Setting one key leaves lookups of other keys unchanged. -/
theorem dget_dset_other {α : Type} (l : List (String × α)) (k k' : String)
    (v : α) (h : k' ≠ k) : dget (dset l k' v) k = dget l k := by
  unfold dset
  by_cases ha : l.any (fun kv => kv.1 == k') = true
  · rw [if_pos ha]
    unfold dget
    rw [find?_overwrite_other l k k' v h]
  · rw [if_neg ha]
    have h1 : (k' == k) = false := by simp [h]
    unfold dget
    rw [List.find?_append]
    simp only [List.find?_cons, h1, List.find?_nil, Option.or_none]

/-- Deleting a key removes it from lookups. -/
theorem dget_ddel_self {α : Type} (l : List (String × α)) (k : String) :
    dget (ddel l k) k = none := by
  simp only [dget, ddel]
  rw [List.find?_eq_none.mpr]
  · rfl
  · intro x hx
    have h2 := (List.mem_filter.mp hx).2
    simp only [bne_iff_ne, ne_eq] at h2
    simp [h2]

/-- Deleting one key leaves lookups of other keys unchanged. -/
theorem dget_ddel_other {α : Type} (l : List (String × α)) (k k' : String)
    (h : k' ≠ k) : dget (ddel l k') k = dget l k := by
  simp only [dget, ddel]
  congr 1
  induction l with
  | nil => rfl
  | cons kv rest ih =>
      by_cases h1 : (kv.1 == k) = true
      · have hkv : kv.1 = k := beq_iff_eq.mp h1
        have h2 : (kv.1 != k') = true := by simp [hkv, Ne.symm h]
        simp only [List.filter_cons, h2, if_true, List.find?_cons, h1]
      · rw [Bool.not_eq_true] at h1
        by_cases h2 : (kv.1 != k') = true
        · simp only [List.filter_cons, h2, if_true, List.find?_cons, h1]
          exact ih
        · rw [Bool.not_eq_true] at h2
          simp only [List.filter_cons, h2, Bool.false_eq_true, if_false,
            List.find?_cons, h1]
          exact ih

/-- The pair just set is a member of the updated dict. -/
theorem mem_dset_self {α : Type} (l : List (String × α)) (k : String) (v : α) :
    (k, v) ∈ dset l k v := by
  unfold dset
  by_cases h : l.any (fun kv => kv.1 == k) = true
  · rw [if_pos h]
    obtain ⟨kv, hmem, hk⟩ := List.any_eq_true.mp h
    refine List.mem_map.mpr ⟨kv, hmem, ?_⟩
    rw [if_pos hk]
  · rw [if_neg h]
    simp

/-- Every entry of the just-set key carries the just-set value. -/
theorem mem_dset_value {α : Type} {l : List (String × α)} {k : String}
    {v w : α} (h : (k, w) ∈ dset l k v) : w = v := by
  unfold dset at h
  by_cases ha : l.any (fun kv => kv.1 == k) = true
  · rw [if_pos ha] at h
    obtain ⟨kv, hmem, heq⟩ := List.mem_map.mp h
    by_cases hk : (kv.1 == k) = true
    · rw [if_pos hk] at heq
      exact (congrArg Prod.snd heq).symm
    · rw [if_neg hk] at heq
      rw [heq] at hk
      simp at hk
  · rw [if_neg ha] at h
    rcases List.mem_append.mp h with hl | hr
    · exact absurd (List.any_eq_true.mpr ⟨(k, w), hl, by simp⟩) ha
    · exact congrArg Prod.snd (List.mem_singleton.mp hr)

/-- Setting a different key neither adds nor removes entries of this key. -/
theorem mem_dset_other {α : Type} {l : List (String × α)} {k k' : String}
    {v : α} (h : k' ≠ k) (w : α) : ((k, w) ∈ dset l k' v) ↔ (k, w) ∈ l := by
  unfold dset
  by_cases ha : l.any (fun kv => kv.1 == k') = true
  · rw [if_pos ha]
    constructor
    · intro hm
      obtain ⟨kv, hmem, heq⟩ := List.mem_map.mp hm
      by_cases hk : (kv.1 == k') = true
      · rw [if_pos hk] at heq
        exact absurd (congrArg Prod.fst heq) h
      · rw [if_neg hk] at heq
        exact heq ▸ hmem
    · intro hm
      refine List.mem_map.mpr ⟨(k, w), hm, ?_⟩
      have hkk : ¬(((k, w).1 == k') = true) := by simp [Ne.symm h]
      rw [if_neg hkk]
  · rw [if_neg ha, List.mem_append]
    constructor
    · rintro (hl | hr)
      · exact hl
      · exact absurd (congrArg Prod.fst (List.mem_singleton.mp hr)) (Ne.symm h)
    · exact Or.inl

/-- Folding dict insertions whose keys all avoid k leaves the entries of k
untouched. -/
theorem mem_foldl_dset_of_not_key {α : Type} (l : List (String × α))
    (acc : List (String × α)) (k : String) (w : α)
    (hk : ∀ kv ∈ l, kv.1 ≠ k) :
    ((k, w) ∈ l.foldl (fun a kv => dset a kv.1 kv.2) acc ↔ (k, w) ∈ acc) := by
  induction l generalizing acc with
  | nil => exact Iff.rfl
  | cons kv rest ih =>
      rw [List.foldl_cons,
        ih _ (fun x hx => hk x (List.mem_cons_of_mem _ hx))]
      exact mem_dset_other (hk kv (List.mem_cons_self _ _)) w

/-- Folding dict insertions over a nodup-keyed entry list: the value of a key
present in the entries wins, and the pair is present in the result. -/
theorem foldl_dset_value {α : Type} (props : List (String × α)) :
    ∀ acc k v, (props.map Prod.fst).Nodup → (k, v) ∈ props →
      (∀ w, (k, w) ∈ props.foldl (fun a kv => dset a kv.1 kv.2) acc → w = v)
      ∧ (k, v) ∈ props.foldl (fun a kv => dset a kv.1 kv.2) acc := by
  induction props with
  | nil => intro acc k v _ hmem; exact absurd hmem (List.not_mem_nil _)
  | cons kv rest ih =>
      intro acc k v hnd hmem
      rw [List.map_cons, List.nodup_cons] at hnd
      rw [List.foldl_cons]
      rcases List.mem_cons.mp hmem with heq | hmem'
      · subst heq
        have hrest : ∀ x ∈ rest, x.1 ≠ k := by
          intro x hx hxk
          have hxm : x.1 ∈ rest.map Prod.fst := List.mem_map_of_mem Prod.fst hx
          rw [hxk] at hxm
          exact hnd.1 hxm
        constructor
        · intro w hw
          rw [mem_foldl_dset_of_not_key rest _ k w hrest] at hw
          exact mem_dset_value hw
        · rw [mem_foldl_dset_of_not_key rest _ k v hrest]
          exact mem_dset_self acc k v
      · exact ih (dset acc kv.1 kv.2) k v hnd.2 hmem'

/-- In the Python merge of shared state under handler props, a key of a
nodup-keyed handler prop map keeps exactly its handler value. -/
theorem dictUpdate_value {α : Type} (shared props : List (String × α))
    (k : String) (v : α) (hnd : (props.map Prod.fst).Nodup)
    (hmem : (k, v) ∈ props) :
    (∀ w, (k, w) ∈ dictUpdate shared props → w = v)
    ∧ (k, v) ∈ dictUpdate shared props := by
  unfold dictUpdate dlit
  rw [List.foldl_append]
  exact foldl_dset_value props _ k v hnd hmem

/-- Definitional reduction of callability at each wrapper constructor. -/
theorem isCallable_optionalP (p : PVal) : isCallable (.optionalP p) = true := rfl

/-- Definitional reduction of callability at DeferredProp. -/
theorem isCallable_deferredP (p : PVal) (g : String) (m : Bool) :
    isCallable (.deferredP p g m) = true := rfl

/-- Definitional reduction of callability at MergeProp. -/
theorem isCallable_mergeP (p : PVal) : isCallable (.mergeP p) = true := rfl

/-- Unfolding of the traced call at OptionalProp. -/
theorem callPropT_optionalP (env : Nat → PVal) (p : PVal) :
    callPropT env (.optionalP p)
      = if isCallable p then callPropT env p else (p, []) := rfl

/-- Unfolding of the traced call at DeferredProp. -/
theorem callPropT_deferredP (env : Nat → PVal) (p : PVal) (g : String)
    (m : Bool) : callPropT env (.deferredP p g m)
      = if isCallable p then callPropT env p else (p, []) := rfl

/-- Unfolding of the traced call at MergeProp. -/
theorem callPropT_mergeP (env : Nat → PVal) (p : PVal) :
    callPropT env (.mergeP p)
      = if isCallable p then callPropT env p else (p, []) := rfl

/-- Unfolding of the call at OptionalProp. -/
theorem callProp_optionalP (env : Nat → PVal) (p : PVal) :
    callProp env (.optionalP p)
      = if isCallable p then callProp env p else p := rfl

/-- Unfolding of the call at DeferredProp. -/
theorem callProp_deferredP (env : Nat → PVal) (p : PVal) (g : String)
    (m : Bool) : callProp env (.deferredP p g m)
      = if isCallable p then callProp env p else p := rfl

/-- Unfolding of the call at MergeProp. -/
theorem callProp_mergeP (env : Nat → PVal) (p : PVal) :
    callProp env (.mergeP p)
      = if isCallable p then callProp env p else p := rfl

/-- Unfolding of the resolved occurrences at OptionalProp. -/
theorem resolvedFuncs_optionalP (p : PVal) :
    resolvedFuncs (.optionalP p)
      = if isCallable p then resolvedFuncs p else [] := rfl

/-- Unfolding of the resolved occurrences at DeferredProp. -/
theorem resolvedFuncs_deferredP (p : PVal) (g : String) (m : Bool) :
    resolvedFuncs (.deferredP p g m)
      = if isCallable p then resolvedFuncs p else [] := rfl

/-- Unfolding of the resolved occurrences at MergeProp. -/
theorem resolvedFuncs_mergeP (p : PVal) :
    resolvedFuncs (.mergeP p)
      = if isCallable p then resolvedFuncs p else [] := rfl

/-- The traced CallableProp call computes the plain call together with the
resolved producer occurrences (empty when the argument is not callable). -/
theorem callPropT_spec (env : Nat → PVal) :
    ∀ v : PVal, callPropT env v
      = (callProp env v, if isCallable v then resolvedFuncs v else [])
  | .atom s => rfl
  | .func n => rfl
  | .vlist vs => rfl
  | .vdict kvs => rfl
  | .optionalP p => by
      rw [callPropT_optionalP, callProp_optionalP, isCallable_optionalP,
        resolvedFuncs_optionalP, if_pos rfl]
      by_cases h : isCallable p = true
      · rw [if_pos h, if_pos h, if_pos h, callPropT_spec env p, if_pos h]
      · rw [if_neg h, if_neg h, if_neg h]
  | .deferredP p g m => by
      rw [callPropT_deferredP, callProp_deferredP, isCallable_deferredP,
        resolvedFuncs_deferredP, if_pos rfl]
      by_cases h : isCallable p = true
      · rw [if_pos h, if_pos h, if_pos h, callPropT_spec env p, if_pos h]
      · rw [if_neg h, if_neg h, if_neg h]
  | .mergeP p => by
      rw [callPropT_mergeP, callProp_mergeP, isCallable_mergeP,
        resolvedFuncs_mergeP, if_pos rfl]
      by_cases h : isCallable p = true
      · rw [if_pos h, if_pos h, if_pos h, callPropT_spec env p, if_pos h]
      · rw [if_neg h, if_neg h, if_neg h]

/-- Unfolding of the traced transform at a dict. -/
theorem deepTransformTraced_vdict (env : Nat → PVal)
    (kvs : List (String × PVal)) :
    deepTransformTraced env (.vdict kvs)
      = (.vdict (transformEntriesTraced env kvs).1,
         (transformEntriesTraced env kvs).2) := rfl

/-- Unfolding of the traced entry transform at a cons cell. -/
theorem transformEntriesTraced_cons (env : Nat → PVal) (k : String) (v : PVal)
    (rest : List (String × PVal)) :
    transformEntriesTraced env ((k, v) :: rest)
      = ((k, (deepTransformTraced env v).1) :: (transformEntriesTraced env rest).1,
         (deepTransformTraced env v).2 ++ (transformEntriesTraced env rest).2) := rfl

mutual
/-- The traced deep transform computes the plain transform together with
exactly the resolved producer occurrences. -/
theorem deepTransformTraced_spec (env : Nat → PVal) :
    ∀ v : PVal, deepTransformTraced env v
      = (deep_transform_callables env v, resolvedFuncs v)
  | .atom s => rfl
  | .vlist vs => rfl
  | .func n => rfl
  | .optionalP p => by
      rw [show deepTransformTraced env (.optionalP p)
            = callPropT env (.optionalP p) from rfl,
        callPropT_spec env (.optionalP p), isCallable_optionalP, if_pos rfl]
      rfl
  | .deferredP p g m => by
      rw [show deepTransformTraced env (.deferredP p g m)
            = callPropT env (.deferredP p g m) from rfl,
        callPropT_spec env (.deferredP p g m), isCallable_deferredP, if_pos rfl]
      rfl
  | .mergeP p => by
      rw [show deepTransformTraced env (.mergeP p)
            = callPropT env (.mergeP p) from rfl,
        callPropT_spec env (.mergeP p), isCallable_mergeP, if_pos rfl]
      rfl
  | .vdict kvs => by
      rw [deepTransformTraced_vdict, transformEntriesTraced_spec env kvs]
      rfl

/-- The traced entry transform computes the plain entry transform together
with the resolved producer occurrences of the entries. -/
theorem transformEntriesTraced_spec (env : Nat → PVal) :
    ∀ l : List (String × PVal), transformEntriesTraced env l
      = (transformEntries env l, resolvedFuncsEntries l)
  | [] => rfl
  | (k, v) :: rest => by
      rw [transformEntriesTraced_cons, deepTransformTraced_spec env v,
        transformEntriesTraced_spec env rest]
      rfl
end

/-- The entry transform preserves the key sequence. -/
theorem transformEntries_map_fst (env : Nat → PVal) (l : List (String × PVal)) :
    (transformEntries env l).map Prod.fst = l.map Prod.fst := by
  induction l with
  | nil => rfl
  | cons kv rest ih =>
      obtain ⟨k, v⟩ := kv
      rw [transformEntries, List.map_cons, List.map_cons, ih]

/-- Every entry survives the entry transform with its value transformed. -/
theorem mem_transformEntries_of_mem (env : Nat → PVal)
    {l : List (String × PVal)} {k : String} {v : PVal} (h : (k, v) ∈ l) :
    (k, deep_transform_callables env v) ∈ transformEntries env l := by
  induction l with
  | nil => cases h
  | cons kv rest ih =>
      obtain ⟨k0, v0⟩ := kv
      rw [transformEntries]
      rcases List.mem_cons.mp h with heq | hm
      · have hk : k = k0 := congrArg Prod.fst heq
        have hv : v = v0 := congrArg Prod.snd heq
        rw [hk, hv]
        exact List.mem_cons_self _ _
      · exact List.mem_cons_of_mem _ (ih hm)

/-- Keys appearing after the entry transform appeared before it. -/
theorem mem_transformEntries_fst (env : Nat → PVal)
    {l : List (String × PVal)} {k : String} {w : PVal}
    (h : (k, w) ∈ transformEntries env l) : ∃ v, (k, v) ∈ l := by
  induction l with
  | nil => cases h
  | cons kv rest ih =>
      obtain ⟨k0, v0⟩ := kv
      rw [transformEntries] at h
      rcases List.mem_cons.mp h with heq | hm
      · have hk : k = k0 := congrArg Prod.fst heq
        exact ⟨v0, by rw [hk]; exact List.mem_cons_self _ _⟩
      · obtain ⟨v, hv⟩ := ih hm
        exact ⟨v, List.mem_cons_of_mem _ hv⟩

/-- Membership in the resolved producer occurrences of an entry list. -/
theorem mem_resolvedFuncsEntries {l : List (String × PVal)} {n : Nat} :
    n ∈ resolvedFuncsEntries l ↔ ∃ k v, (k, v) ∈ l ∧ n ∈ resolvedFuncs v := by
  induction l with
  | nil =>
      simp only [resolvedFuncsEntries, List.not_mem_nil, false_iff]
      rintro ⟨k, v, hm, _⟩
      cases hm
  | cons kv rest ih =>
      obtain ⟨k0, v0⟩ := kv
      rw [resolvedFuncsEntries, List.mem_append, ih]
      constructor
      · rintro (hv | ⟨k, v, hm, hn⟩)
        · exact ⟨k0, v0, List.mem_cons_self _ _, hv⟩
        · exact ⟨k, v, List.mem_cons_of_mem _ hm, hn⟩
      · rintro ⟨k, v, hm, hn⟩
        rcases List.mem_cons.mp hm with heq | hm'
        · left
          have hv : v = v0 := congrArg Prod.snd heq
          rw [← hv]
          exact hn
        · right
          exact ⟨k, v, hm', hn⟩

/-- The find of a dict lookup is none exactly when the lookup is none. -/
theorem find?_eq_none_of_dget_eq_none {α : Type} {m : List (String × α)}
    {g : String} (h : dget m g = none) :
    m.find? (fun kv => kv.1 == g) = none := by
  unfold dget at h
  exact Option.map_eq_none'.mp h

/-- Appending a key into its group updates that group's lookup. -/
theorem dget_add_to_group_self (m : List (String × List String))
    (g k : String) :
    dget (add_to_group m g k) g = some (((dget m g).getD []) ++ [k]) := by
  unfold add_to_group
  cases h : dget m g with
  | some ks =>
      simp only [h, Option.getD_some]
      exact dget_dset_self m g (ks ++ [k])
  | none =>
      simp only [h, Option.getD_none, List.nil_append]
      unfold dget
      rw [List.find?_append, find?_eq_none_of_dget_eq_none h]
      simp only [List.find?_cons, beq_self_eq_true, Option.none_or]
      rfl

/-- Appending a key into one group leaves other groups' lookups unchanged. -/
theorem dget_add_to_group_other (m : List (String × List String))
    (g g' k : String) (h : g ≠ g') :
    dget (add_to_group m g k) g' = dget m g' := by
  unfold add_to_group
  cases hm : dget m g with
  | some ks => exact dget_dset_other m g' g (ks ++ [k]) h
  | none =>
      have h1 : (g == g') = false := by simp [h]
      unfold dget
      rw [List.find?_append]
      simp only [List.find?_cons, h1, List.find?_nil, Option.or_none]

/-- Key presence via the any-test equals lookup success. -/
theorem any_key_eq_dget_isSome {α : Type} (m : List (String × α))
    (g : String) : (m.any fun kv => kv.1 == g) = (dget m g).isSome := by
  induction m with
  | nil => rfl
  | cons kv rest ih =>
      by_cases h : (kv.1 == g) = true
      · simp [dget, List.find?_cons, h, List.any_cons]
      · rw [Bool.not_eq_true] at h
        simp only [List.any_cons, h, Bool.false_or, ih]
        unfold dget
        simp only [List.find?_cons, h]

/-- Key presence read through the first components equals the any-test. -/
theorem contains_map_fst_eq_any {α : Type} (m : List (String × α))
    (g : String) :
    (m.map Prod.fst).contains g = (m.any fun kv => kv.1 == g) := by
  induction m with
  | nil => rfl
  | cons kv rest ih =>
      by_cases h : kv.1 = g
      · simp [h, List.any_cons]
      · have h1 : (kv.1 == g) = false := by simp [h]
        have h2 : (g == kv.1) = false := by simp [Ne.symm h]
        simp only [List.map_cons, List.contains_cons, h2, Bool.false_or,
          List.any_cons, h1, ih]

/-- Keys after a dict insertion: unchanged when the key was present,
appended otherwise. -/
theorem map_fst_dset {α : Type} (m : List (String × α)) (g : String) (v : α) :
    (dset m g v).map Prod.fst
      = if m.any (fun kv => kv.1 == g) then m.map Prod.fst
        else m.map Prod.fst ++ [g] := by
  unfold dset
  by_cases h : (m.any fun kv => kv.1 == g) = true
  · rw [if_pos h, if_pos h, List.map_map]
    apply List.map_congr_left
    intro kv hkv
    by_cases hk : (kv.1 == g) = true
    · simp only [Function.comp_apply, if_pos hk]
      exact (beq_iff_eq.mp hk).symm
    · simp only [Function.comp_apply, if_neg hk]
  · rw [if_neg h, if_neg h, List.map_append]
    rfl

/-- Keys after appending into a group: unchanged when the group existed,
the group name appended otherwise. -/
theorem map_fst_add_to_group (m : List (String × List String))
    (g k : String) :
    (add_to_group m g k).map Prod.fst
      = if (m.map Prod.fst).contains g then m.map Prod.fst
        else m.map Prod.fst ++ [g] := by
  rw [contains_map_fst_eq_any]
  unfold add_to_group
  cases h : dget m g with
  | some ks =>
      have ha : (m.any fun kv => kv.1 == g) = true := by
        rw [any_key_eq_dget_isSome, h]
        rfl
      rw [map_fst_dset, if_pos ha]
  | none =>
      have ha : (m.any fun kv => kv.1 == g) = false := by
        rw [any_key_eq_dget_isSome, h]
        rfl
      rw [if_neg (by simp [ha]), List.map_append]
      rfl

/-- The grouping loop skips a non-deferred value. -/
theorem deferred_step_non_deferred (acc : List (String × List String))
    (k0 : String) (v0 : PVal) (h : isDeferred v0 = false) :
    deferred_step acc (k0, v0) = acc := by
  cases v0 <;> try simp [isDeferred] at h
  all_goals rfl

/-- A non-deferred head contributes no deferred key. -/
theorem deferred_keys_cons_non_deferred (k0 : String) (v0 : PVal)
    (rest : Props) (g : String) (h : isDeferred v0 = false) :
    deferred_keys ((k0, v0) :: rest) g = deferred_keys rest g := by
  cases v0 <;> try simp [isDeferred] at h
  all_goals simp [deferred_keys, List.filter_cons]

/-- A non-deferred head contributes no group occurrence. -/
theorem deferred_groups_cons_non_deferred (k0 : String) (v0 : PVal)
    (rest : Props) (h : isDeferred v0 = false) :
    deferred_group_occurrences ((k0, v0) :: rest)
      = deferred_group_occurrences rest := by
  cases v0 <;> try simp [isDeferred] at h
  all_goals simp [deferred_group_occurrences, List.filterMap_cons]

/-- A deferred head contributes its key to its own group. -/
theorem deferred_keys_cons_same (k0 : String) (p : PVal) (g0 : String)
    (m : Bool) (rest : Props) :
    deferred_keys ((k0, PVal.deferredP p g0 m) :: rest) g0
      = k0 :: deferred_keys rest g0 := by
  simp [deferred_keys, List.filter_cons]

/-- A deferred head contributes nothing to other groups. -/
theorem deferred_keys_cons_other (k0 : String) (p : PVal) (g0 : String)
    (m : Bool) (rest : Props) (g : String) (h : g0 ≠ g) :
    deferred_keys ((k0, PVal.deferredP p g0 m) :: rest) g
      = deferred_keys rest g := by
  have h1 : (g0 == g) = false := by simp [h]
  simp [deferred_keys, List.filter_cons, h1]

/-- A deferred head contributes its group occurrence first. -/
theorem deferred_groups_cons_deferred (k0 : String) (p : PVal) (g0 : String)
    (m : Bool) (rest : Props) :
    deferred_group_occurrences ((k0, PVal.deferredP p g0 m) :: rest)
      = g0 :: deferred_group_occurrences rest := by
  simp [deferred_group_occurrences, List.filterMap_cons]

/-- Lookup of a group after the whole grouping loop: the keys deferred into
the group are appended, in order, to whatever the accumulator held. -/
theorem dget_foldl_deferred (props : Props) :
    ∀ (acc : List (String × List String)) (g : String),
      dget (props.foldl deferred_step acc) g
      = match dget acc g with
        | some ks => some (ks ++ deferred_keys props g)
        | none =>
            if deferred_keys props g = [] then none
            else some (deferred_keys props g) := by
  induction props with
  | nil =>
      intro acc g
      cases h : dget acc g <;>
        simp [deferred_keys, h]
  | cons kv rest ih =>
      intro acc g
      obtain ⟨k0, v0⟩ := kv
      rw [List.foldl_cons]
      by_cases hd : isDeferred v0 = true
      · rcases v0 with s | n | vs | kvs | p | ⟨p, g0, m⟩ | p <;>
          try simp [isDeferred] at hd
        by_cases hg : g0 = g
        · subst hg
          rw [show deferred_step acc (k0, PVal.deferredP p g0 m)
                = add_to_group acc g0 k0 from rfl,
            ih (add_to_group acc g0 k0) g0,
            dget_add_to_group_self acc g0 k0,
            deferred_keys_cons_same k0 p g0 m rest]
          cases hacc : dget acc g0 with
          | some ks => simp [hacc]
          | none => simp [hacc]
        · rw [show deferred_step acc (k0, PVal.deferredP p g0 m)
                = add_to_group acc g0 k0 from rfl,
            ih (add_to_group acc g0 k0) g,
            dget_add_to_group_other acc g0 g k0 hg,
            deferred_keys_cons_other k0 p g0 m rest g hg]
      · rw [Bool.not_eq_true] at hd
        rw [deferred_step_non_deferred acc k0 v0 hd, ih acc g,
          deferred_keys_cons_non_deferred k0 v0 rest g hd]

/-- Group names after the whole grouping loop: the declared group
occurrences folded, first-seen deduplicated, onto the accumulator's keys. -/
theorem map_fst_foldl_deferred (props : Props) :
    ∀ acc : List (String × List String),
      (props.foldl deferred_step acc).map Prod.fst
      = (deferred_group_occurrences props).foldl
          (fun gs g => if gs.contains g then gs else gs ++ [g])
          (acc.map Prod.fst) := by
  induction props with
  | nil =>
      intro acc
      simp [deferred_group_occurrences]
  | cons kv rest ih =>
      intro acc
      obtain ⟨k0, v0⟩ := kv
      rw [List.foldl_cons]
      by_cases hd : isDeferred v0 = true
      · rcases v0 with s | n | vs | kvs | p | ⟨p, g0, m⟩ | p <;>
          try simp [isDeferred] at hd
        rw [show deferred_step acc (k0, PVal.deferredP p g0 m)
              = add_to_group acc g0 k0 from rfl,
          ih (add_to_group acc g0 k0),
          deferred_groups_cons_deferred k0 p g0 m rest,
          List.foldl_cons, map_fst_add_to_group acc g0 k0]
      · rw [Bool.not_eq_true] at hd
        rw [deferred_step_non_deferred acc k0 v0 hd, ih acc,
          deferred_groups_cons_non_deferred k0 v0 rest hd]

/-- The first-seen fold never empties a nonempty accumulator. -/
theorem foldl_first_seen_ne_nil (l : List String) :
    ∀ acc : List String, acc ≠ [] →
      l.foldl (fun gs g => if gs.contains g then gs else gs ++ [g]) acc ≠ [] := by
  induction l with
  | nil => intro acc h; exact h
  | cons g rest ih =>
      intro acc h
      rw [List.foldl_cons]
      by_cases hc : acc.contains g = true
      · rw [if_pos hc]
        exact ih acc h
      · rw [if_neg hc]
        exact ih _ (by simp)

/-- First-seen deduplication is empty exactly on the empty list. -/
theorem first_seen_eq_nil_iff (l : List String) :
    first_seen l = [] ↔ l = [] := by
  constructor
  · intro h
    cases l with
    | nil => rfl
    | cons g rest =>
        unfold first_seen at h
        rw [List.foldl_cons] at h
        exact absurd h (foldl_first_seen_ne_nil rest _ (by simp))
  · intro h
    rw [h]
    rfl

/-- The key sequence of the collected manifest is the first-seen
deduplication of the declared group occurrences. -/
theorem collect_deferred_map_fst (props : Props) :
    (collect_deferred props).map Prod.fst
      = first_seen (deferred_group_occurrences props) := by
  unfold collect_deferred first_seen
  exact map_fst_foldl_deferred props []

/-- The collected manifest is empty exactly when no prop is deferred. -/
theorem collect_deferred_eq_nil_iff (props : Props) :
    collect_deferred props = [] ↔ deferred_group_occurrences props = [] := by
  constructor
  · intro h
    rw [← first_seen_eq_nil_iff, ← collect_deferred_map_fst, h]
    rfl
  · intro h
    have := collect_deferred_map_fst props
    rw [h] at this
    exact List.map_eq_nil_iff.mp (by rw [this]; rfl)

/-- Group lookup in the collected manifest. -/
theorem dget_collect_deferred (props : Props) (g : String) :
    dget (collect_deferred props) g
      = if deferred_keys props g = [] then none
        else some (deferred_keys props g) := by
  unfold collect_deferred
  rw [dget_foldl_deferred props [] g]
  rfl

/-- C1: in the inclusion filter of _build_props, applied per key of the
merged prop map, on a matching partial render a key is kept iff it appears
in the comma-split (untrimmed) partial-data header value — an empty header
value yielding the single empty-string key, which drops every ordinarily
named prop — and on a first load a key is dropped iff its value is an
ignore-on-first-load variant (Optional or Deferred). -/
theorem prop_inclusion_filter_spec (hs : Headers) (component : String)
    (merged : Props) (k : String) (v : PVal) (hmem : (k, v) ∈ merged) :
    (is_a_partial_render hs component = true →
      ((k, v) ∈ props_filter hs component merged
        ↔ (partial_keys hs).contains k = true))
    ∧ (is_a_partial_render hs component = false →
      ((k, v) ∈ props_filter hs component merged
        ↔ isIgnoreOnFirstLoad v = false))
    ∧ (dget hs "X-Inertia-Partial-Data" = some "" →
        (partial_keys hs = [""] ∧ (k ≠ "" → ¬(partial_keys hs).contains k = true))) := by
  refine ⟨?_, ?_, ?_⟩
  · intro hp
    rw [props_filter, List.mem_filter]
    simp [hmem, hp]
  · intro hp
    rw [props_filter, List.mem_filter]
    simp [hmem, hp]
  · intro he
    have hkeys : partial_keys hs = [""] := by
      rw [partial_keys, he]
      rfl
    refine ⟨hkeys, ?_⟩
    intro hk
    rw [hkeys]
    simp [hk]

/-- C1 witness: with partial headers requesting key a for the matching
component, the merged entry for a survives the filter. -/
theorem prop_inclusion_filter_spec_witness :
    ("a", PVal.atom JScalar.snull) ∈
      props_filter [("X-Inertia-Partial-Data", "a"),
        ("X-Inertia-Partial-Component", "C")] "C"
        [("a", PVal.atom JScalar.snull)] := by
  have h := prop_inclusion_filter_spec
    [("X-Inertia-Partial-Data", "a"), ("X-Inertia-Partial-Component", "C")]
    "C" [("a", PVal.atom JScalar.snull)] "a" (PVal.atom JScalar.snull)
    (by simp)
  exact (h.1 (by decide)).mpr (by decide)

/-- C2 counterexample: with the partial-data header present and the
partial-component header missing, the request is treated as a partial render
for the empty component name, although the claim states a missing
partial-component header never matches. -/
theorem partial_render_missing_header_cex :
    dget [("X-Inertia-Partial-Data", "x")] "X-Inertia-Partial-Component" = none
      ∧ is_a_partial_render [("X-Inertia-Partial-Data", "x")] "" = true :=
  ⟨rfl, rfl⟩

/-- C2 amended: a request is a partial render for the component iff the
partial-data header is present and the partial-component header, read as the
empty string when missing, equals the component name by exact string match;
hence for a nonempty component name a missing or mismatched header never
matches. -/
theorem partial_render_exact_match (hs : Headers) (component : String)
    (hc : component ≠ "") :
    is_a_partial_render hs component = true ↔
      ((dget hs "X-Inertia-Partial-Data").isSome = true
        ∧ dget hs "X-Inertia-Partial-Component" = some component) := by
  unfold is_a_partial_render
  cases h : dget hs "X-Inertia-Partial-Component" with
  | none => simp [h, Ne.symm hc]
  | some v => simp [h]

/-- C2 amended witness: exact match at component C. -/
theorem partial_render_exact_match_witness :
    is_a_partial_render [("X-Inertia-Partial-Data", "a"),
      ("X-Inertia-Partial-Component", "C")] "C" = true :=
  (partial_render_exact_match _ "C" (by decide)).mpr (by exact ⟨rfl, rfl⟩)

/-- C5: for every request and prop map, the merge prop list contains exactly
the keys whose value is a Deferred prop with the merge flag set or an
AlwaysMerge prop AND that are not in the comma-split (untrimmed) reset header
list — reset wins over merge — and the mergeProps page field is present
exactly when that list is nonempty. -/
theorem merge_props_spec (hs : Headers) (props : Props) (k : String) :
    (k ∈ build_merge_props hs props ↔
      (((∃ p g, (k, PVal.deferredP p g true) ∈ props)
          ∨ (∃ p, (k, PVal.mergeP p) ∈ props))
        ∧ (reset_keys hs).contains k = false))
    ∧ (∀ env component url version enc shared,
        (build_merge_props hs props = [] →
          (build_page_data env hs component url version enc shared props).mergeProps
            = none)
        ∧ (build_merge_props hs props ≠ [] →
          (build_page_data env hs component url version enc shared props).mergeProps
            = some (build_merge_props hs props))) := by
  constructor
  · constructor
    · intro hk
      unfold build_merge_props at hk
      obtain ⟨⟨k', v⟩, hmem, hfst⟩ := List.mem_map.mp hk
      have hk' : k' = k := hfst
      subst hk'
      obtain ⟨hmem', hpred⟩ := List.mem_filter.mp hmem
      simp only [Bool.and_eq_true, Bool.not_eq_true'] at hpred
      obtain ⟨hdm, hres⟩ := hpred
      refine ⟨?_, hres⟩
      cases v with
      | atom s => simp [declaresMerge] at hdm
      | func n => simp [declaresMerge] at hdm
      | vlist vs => simp [declaresMerge] at hdm
      | vdict kvs => simp [declaresMerge] at hdm
      | optionalP p => simp [declaresMerge] at hdm
      | deferredP p g m =>
          cases m with
          | false => simp [declaresMerge] at hdm
          | true => exact Or.inl ⟨p, g, hmem'⟩
      | mergeP p => exact Or.inr ⟨p, hmem'⟩
    · rintro ⟨hv, hres⟩
      unfold build_merge_props
      rcases hv with ⟨p, g, hmem⟩ | ⟨p, hmem⟩
      · refine List.mem_map.mpr ⟨(k, PVal.deferredP p g true),
          List.mem_filter.mpr ⟨hmem, ?_⟩, rfl⟩
        simp only [declaresMerge, hres, Bool.not_false, Bool.and_true]
      · refine List.mem_map.mpr ⟨(k, PVal.mergeP p),
          List.mem_filter.mpr ⟨hmem, ?_⟩, rfl⟩
        simp only [declaresMerge, hres, Bool.not_false, Bool.and_true]
  · intro env component url version enc shared
    constructor
    · intro h
      simp [build_page_data, h]
    · intro h
      obtain ⟨a, t, hat⟩ := List.exists_cons_of_ne_nil h
      simp only [build_page_data]
      rw [hat]
      rfl

/-- C5 witness: an AlwaysMerge prop with no reset header is listed and keeps
the mergeProps field present. -/
theorem merge_props_spec_witness :
    "s" ∈ build_merge_props [] [("s", PVal.mergeP (PVal.atom JScalar.snull))]
    ∧ (build_page_data (fun _ => PVal.atom JScalar.snull) [] "C" "u" "v" false
        [] [("s", PVal.mergeP (PVal.atom JScalar.snull))]).mergeProps
      = some (build_merge_props [] [("s", PVal.mergeP (PVal.atom JScalar.snull))]) := by
  constructor
  · exact (merge_props_spec [] [("s", PVal.mergeP (PVal.atom JScalar.snull))]
      "s").1.mpr ⟨Or.inr ⟨PVal.atom JScalar.snull, by simp⟩, by decide⟩
  · exact ((merge_props_spec [] [("s", PVal.mergeP (PVal.atom JScalar.snull))]
      "s").2 (fun _ => PVal.atom JScalar.snull) "C" "u" "v" false []).2
      (by decide)

/-- C6: in the middleware post-pass, for an Inertia request whose response is
a 301/302 redirect, a PUT/PATCH/DELETE method rewrites the status to 303 with
all headers (Location included) preserved; any other method converts the
response to the 409 form — status 409, X-Inertia-Location carrying the
redirect URL, Location removed — while non-Inertia requests and non-redirect
responses pass through unchanged. -/
theorem redirect_post_pass_spec (method : String) (hs : Headers) (r : Resp) :
    (is_inertia hs = true → (r.status_code = 301 ∨ r.status_code = 302) →
      (((method = "PUT" ∨ method = "PATCH" ∨ method = "DELETE") →
          middleware_post method hs r = { r with status_code := 303 })
        ∧ ((method ≠ "PUT" ∧ method ≠ "PATCH" ∧ method ≠ "DELETE") →
          ((middleware_post method hs r).status_code = 409
            ∧ dget (middleware_post method hs r).headers "X-Inertia-Location"
                = some ((dget r.headers "Location").getD "/")
            ∧ dget (middleware_post method hs r).headers "Location" = none
            ∧ (middleware_post method hs r).body = r.body))))
    ∧ (is_inertia hs = false → middleware_post method hs r = r)
    ∧ (is_redirect_response r = false → middleware_post method hs r = r) := by
  refine ⟨?_, ?_, ?_⟩
  · intro hin hr
    have hred : is_redirect_response r = true := by
      rcases hr with h | h <;> simp [is_redirect_response, h]
    constructor
    · intro hm
      have hng : is_non_get_redirect method r = true := by
        unfold is_non_get_redirect
        rw [hred]
        rcases hm with h | h | h <;> simp [h]
      simp only [middleware_post, hin, hng, if_true]
    · rintro ⟨h1, h2, h3⟩
      have hng : is_non_get_redirect method r = false := by
        unfold is_non_get_redirect
        simp [h1, h2, h3]
      have hXL : ("X-Inertia-Location" : String) ≠ "Location" := by decide
      have hLX : ("Location" : String) ≠ "X-Inertia-Location" := by decide
      have hpost : middleware_post method hs r
          = { status_code := 409
              headers :=
                if (dget (dset r.headers "X-Inertia-Location"
                        ((dget r.headers "Location").getD "/")) "Location").isSome
                then ddel (dset r.headers "X-Inertia-Location"
                        ((dget r.headers "Location").getD "/")) "Location"
                else dset r.headers "X-Inertia-Location"
                        ((dget r.headers "Location").getD "/")
              body := r.body } := by
        simp only [middleware_post, hin, hng, hred, if_true,
          Bool.false_eq_true, if_false]
      rw [hpost]
      refine ⟨rfl, ?_, ?_, rfl⟩
      · by_cases hguard : (dget (dset r.headers "X-Inertia-Location"
            ((dget r.headers "Location").getD "/")) "Location").isSome = true
        · show dget (if (dget (dset r.headers "X-Inertia-Location"
              ((dget r.headers "Location").getD "/")) "Location").isSome
              then ddel (dset r.headers "X-Inertia-Location"
                ((dget r.headers "Location").getD "/")) "Location"
              else dset r.headers "X-Inertia-Location"
                ((dget r.headers "Location").getD "/")) "X-Inertia-Location"
            = some ((dget r.headers "Location").getD "/")
          rw [if_pos hguard, dget_ddel_other _ _ _ hLX, dget_dset_self]
        · show dget (if (dget (dset r.headers "X-Inertia-Location"
              ((dget r.headers "Location").getD "/")) "Location").isSome
              then ddel (dset r.headers "X-Inertia-Location"
                ((dget r.headers "Location").getD "/")) "Location"
              else dset r.headers "X-Inertia-Location"
                ((dget r.headers "Location").getD "/")) "X-Inertia-Location"
            = some ((dget r.headers "Location").getD "/")
          rw [if_neg hguard, dget_dset_self]
      · by_cases hguard : (dget (dset r.headers "X-Inertia-Location"
            ((dget r.headers "Location").getD "/")) "Location").isSome = true
        · show dget (if (dget (dset r.headers "X-Inertia-Location"
              ((dget r.headers "Location").getD "/")) "Location").isSome
              then ddel (dset r.headers "X-Inertia-Location"
                ((dget r.headers "Location").getD "/")) "Location"
              else dset r.headers "X-Inertia-Location"
                ((dget r.headers "Location").getD "/")) "Location" = none
          rw [if_pos hguard, dget_ddel_self]
        · show dget (if (dget (dset r.headers "X-Inertia-Location"
              ((dget r.headers "Location").getD "/")) "Location").isSome
              then ddel (dset r.headers "X-Inertia-Location"
                ((dget r.headers "Location").getD "/")) "Location"
              else dset r.headers "X-Inertia-Location"
                ((dget r.headers "Location").getD "/")) "Location" = none
          rw [if_neg hguard]
          cases hD : dget (dset r.headers "X-Inertia-Location"
              ((dget r.headers "Location").getD "/")) "Location" with
          | none => rfl
          | some x => rw [hD] at hguard; simp at hguard
  · intro hin
    simp only [middleware_post, hin, Bool.false_eq_true, if_false]
  · intro hred
    have hng : is_non_get_redirect method r = false := by
      unfold is_non_get_redirect
      rw [hred]
      rfl
    simp only [middleware_post, hng, hred, Bool.false_eq_true, if_false]
    split <;> rfl

/-- C6 witness: a PUT 302 redirect under an Inertia request becomes 303 with
headers preserved. -/
theorem redirect_post_pass_spec_witness :
    middleware_post "PUT" [("X-Inertia", "true")]
      { status_code := 302, headers := [("Location", "/next")], body := "" }
      = { status_code := 303, headers := [("Location", "/next")], body := "" } := by
  have h := (redirect_post_pass_spec "PUT" [("X-Inertia", "true")]
    { status_code := 302, headers := [("Location", "/next")], body := "" }).1
    (by decide) (Or.inr rfl)
  exact h.1 (Or.inl rfl)

/-- C7: the middleware pre-pass short-circuits an Inertia GET request whose
version header is present and differs from the configured version, returning
the 409 location response for the current request URL without running
application code; non-GET methods, non-Inertia requests and a matching
version proceed to the handler. -/
theorem version_check_pre_pass_spec (version method url : String)
    (hs : Headers) (appResp : Resp) :
    (∀ cv, is_inertia hs = true → method = "GET" →
      dget hs "X-Inertia-Version" = some cv → cv ≠ version →
      (middleware_dispatch version method url hs appResp = (location url, false)
        ∧ (location url).status_code = 409
        ∧ dget (location url).headers "X-Inertia-Location" = some url))
    ∧ ((is_inertia hs = false ∨ method ≠ "GET"
        ∨ dget hs "X-Inertia-Version" = some version) →
      (middleware_dispatch version method url hs appResp).2 = true) := by
  constructor
  · intro cv hin hm hv hne
    have hstale : is_stale hs version = true := by
      unfold is_stale
      rw [hv]
      simp [hne]
    have hcond : (is_inertia hs && method == "GET" && is_stale hs version)
        = true := by
      rw [hin, hm, hstale]
      rfl
    refine ⟨?_, rfl, rfl⟩
    unfold middleware_dispatch
    simp only [hcond, if_true]
  · intro hdisj
    have hcond : (is_inertia hs && method == "GET" && is_stale hs version)
        = false := by
      rcases hdisj with h | h | h
      · simp [h]
      · have hg : (method == "GET") = false := by simp [h]
        simp [hg]
      · have hst : is_stale hs version = false := by
          unfold is_stale
          rw [h]
          simp
        simp [hst]
    unfold middleware_dispatch
    simp only [hcond, Bool.false_eq_true, if_false]

/-- C7 witness: a stale version header on an Inertia GET short-circuits to
the 409 location response, and a matching version proceeds. -/
theorem version_check_pre_pass_spec_witness :
    middleware_dispatch "2.0" "GET" "http://h/x"
        [("X-Inertia", "true"), ("X-Inertia-Version", "1.0")]
        { status_code := 200, headers := [], body := "" }
      = (location "http://h/x", false)
    ∧ (middleware_dispatch "1.0" "GET" "http://h/x"
        [("X-Inertia", "true"), ("X-Inertia-Version", "1.0")]
        { status_code := 200, headers := [], body := "" }).2 = true := by
  constructor
  · exact ((version_check_pre_pass_spec "2.0" "GET" "http://h/x"
      [("X-Inertia", "true"), ("X-Inertia-Version", "1.0")]
      { status_code := 200, headers := [], body := "" }).1 "1.0"
      (by decide) rfl (by decide) (by decide)).1
  · exact (version_check_pre_pass_spec "1.0" "GET" "http://h/x"
      [("X-Inertia", "true"), ("X-Inertia-Version", "1.0")]
      { status_code := 200, headers := [], body := "" }).2
      (Or.inr (Or.inr (by decide)))

/-- C3 counterexample: a producer inside a nested sequence is left
unresolved by the deep transform — the list passes through with the bare
producer still in place — although the same environment resolves that
producer when it is reached directly. -/
theorem nested_producer_cex :
    deep_transform_callables (fun _ => PVal.atom (JScalar.snum 7))
        (PVal.vdict [("a", PVal.vlist [PVal.func 0])])
      = PVal.vdict [("a", PVal.vlist [PVal.func 0])]
    ∧ deep_transform_callables (fun _ => PVal.atom (JScalar.snum 7))
        (PVal.func 0)
      = PVal.atom (JScalar.snum 7) := ⟨rfl, rfl⟩

/-- C3 amended: producer resolution happens after the inclusion filter; the
build performs exactly the invocations of the producers reachable in the
filtered map — each reachable occurrence exactly once, so a producer present
only at a filtered-out key is never invoked — a reached producer is replaced
by its invocation result, plain scalar values pass through unchanged, nested
mappings are walked, but nested sequences pass through unwalked, so a
producer inside a list is not resolved. -/
theorem producer_resolution_spec (env : Nat → PVal) (hs : Headers)
    (component : String) (shared props : Props) :
    (build_props_traced env hs component shared props
      = (build_props env hs component shared props,
         resolvedFuncsEntries
           (props_filter hs component (dictUpdate shared props))))
    ∧ (∀ n : Nat, n ∈ (build_props_traced env hs component shared props).2 ↔
        ∃ k v, (k, v) ∈ props_filter hs component (dictUpdate shared props)
          ∧ n ∈ resolvedFuncs v)
    ∧ (∀ s, deep_transform_callables env (.atom s) = .atom s)
    ∧ (∀ vs, deep_transform_callables env (.vlist vs) = .vlist vs)
    ∧ (∀ n, deep_transform_callables env (.func n) = env n) := by
  refine ⟨?_, ?_, fun s => rfl, fun vs => rfl, fun n => rfl⟩
  · unfold build_props_traced build_props
    rw [transformEntriesTraced_spec]
  · intro n
    unfold build_props_traced
    rw [transformEntriesTraced_spec]
    exact mem_resolvedFuncsEntries

/-- C4: the deferred manifest is absent on a matching partial render — a key
both deferred and requested partially is delivered in the built props as a
resolved value while the manifest is absent — and on a non-partial render
the manifest groups the Deferred keys by group name in first-seen order,
each group listing its keys in declaration order, the field being omitted
exactly when no prop is deferred. -/
theorem deferred_manifest_spec (env : Nat → PVal) (hs : Headers)
    (component : String) (shared props : Props) :
    (is_a_partial_render hs component = true →
      (build_deferred_props hs component props = none
        ∧ (∀ k v, (props.map Prod.fst).Nodup → (k, v) ∈ props →
            (partial_keys hs).contains k = true →
            (k, deep_transform_callables env v)
              ∈ build_props env hs component shared props)))
    ∧ (is_a_partial_render hs component = false →
      ((build_deferred_props hs component props = none
          ↔ deferred_group_occurrences props = [])
        ∧ (∀ man, build_deferred_props hs component props = some man →
            (man.map Prod.fst = first_seen (deferred_group_occurrences props)
              ∧ ∀ g, dget man g
                  = if deferred_keys props g = [] then none
                    else some (deferred_keys props g))))) := by
  constructor
  · intro hp
    constructor
    · unfold build_deferred_props
      simp only [hp, if_true]
    · intro k v hnd hmem hcont
      have hmem' : (k, v) ∈ dictUpdate shared props :=
        (dictUpdate_value shared props k v hnd hmem).2
      have hfilt : (k, v) ∈ props_filter hs component (dictUpdate shared props) := by
        rw [props_filter, List.mem_filter]
        refine ⟨hmem', ?_⟩
        simp only [hp, if_true]
        exact hcont
      exact mem_transformEntries_of_mem env hfilt
  · intro hp
    have hb : build_deferred_props hs component props
        = if (collect_deferred props).isEmpty then none
          else some (collect_deferred props) := by
      unfold build_deferred_props
      simp only [hp, Bool.false_eq_true, if_false]
    constructor
    · rw [hb]
      by_cases hc : (collect_deferred props).isEmpty = true
      · rw [if_pos hc]
        have hnil : collect_deferred props = [] := by
          cases h0 : collect_deferred props with
          | nil => rfl
          | cons a t => rw [h0] at hc; cases hc
        simp only [true_iff]
        exact (collect_deferred_eq_nil_iff props).mp hnil
      · rw [if_neg hc]
        have hne : collect_deferred props ≠ [] := by
          intro h0
          rw [h0] at hc
          exact hc rfl
        constructor
        · intro h0
          cases h0
        · intro hocc
          exact absurd ((collect_deferred_eq_nil_iff props).mpr hocc) hne
    · intro man hman
      rw [hb] at hman
      by_cases hc : (collect_deferred props).isEmpty = true
      · rw [if_pos hc] at hman
        cases hman
      · rw [if_neg hc] at hman
        have hm : collect_deferred props = man := Option.some.inj hman
        subst hm
        exact ⟨collect_deferred_map_fst props, dget_collect_deferred props⟩

/-- C4 witness: a deferred key requested partially is delivered resolved with
no manifest, and on a first load it is grouped into the manifest. -/
theorem deferred_manifest_spec_witness :
    (build_deferred_props
        [("X-Inertia-Partial-Data", "sport"), ("X-Inertia-Partial-Component", "C")]
        "C" [("sport", PVal.deferredP (PVal.atom (JScalar.sstr "Basketball"))
          "default" false)] = none
      ∧ ("sport", deep_transform_callables (fun _ => PVal.atom JScalar.snull)
          (PVal.deferredP (PVal.atom (JScalar.sstr "Basketball")) "default" false))
        ∈ build_props (fun _ => PVal.atom JScalar.snull)
          [("X-Inertia-Partial-Data", "sport"), ("X-Inertia-Partial-Component", "C")]
          "C" []
          [("sport", PVal.deferredP (PVal.atom (JScalar.sstr "Basketball"))
            "default" false)])
    ∧ (∀ man, build_deferred_props []
        "C" [("sport", PVal.deferredP (PVal.atom (JScalar.sstr "Basketball"))
          "default" false)] = some man →
        man.map Prod.fst = first_seen (deferred_group_occurrences
          [("sport", PVal.deferredP (PVal.atom (JScalar.sstr "Basketball"))
            "default" false)])) := by
  constructor
  · have h := (deferred_manifest_spec (fun _ => PVal.atom JScalar.snull)
      [("X-Inertia-Partial-Data", "sport"), ("X-Inertia-Partial-Component", "C")]
      "C" []
      [("sport", PVal.deferredP (PVal.atom (JScalar.sstr "Basketball"))
        "default" false)]).1 (by decide)
    exact ⟨h.1, h.2 "sport" _ (by decide) (by simp) (by decide)⟩
  · intro man hman
    exact ((deferred_manifest_spec (fun _ => PVal.atom JScalar.snull) []
      "C" []
      [("sport", PVal.deferredP (PVal.atom (JScalar.sstr "Basketball"))
        "default" false)]).2 (by decide) |>.2 man hman).1

/-- C9 counterexample: on a first load with SSR enabled and the SSR call
failing, the template context is not exactly the single-entry page map — the
template-data entries are merged in as well. -/
theorem ssr_fallback_context_cex :
    (build_first_load_context_and_template true SsrOutcome.networkError
        [("x", J.jnull)] "d").1
      = [("page", J.jstr "d"), ("x", J.jnull)]
    ∧ (build_first_load_context_and_template true SsrOutcome.networkError
        [("x", J.jnull)] "d").1
      ≠ [("page", J.jstr "d")] := by
  refine ⟨rfl, fun h => ?_⟩
  exact absurd (congrArg List.length h) (by decide)

/-- C9 amended: on a first load with SSR enabled, every failure outcome of
the SSR call (network error, non-success status, malformed body) is caught
and deterministically falls back to client-side rendering — the same result
as with SSR disabled: the page JSON string under the key "page" merged with
template-data as context, with the client template — and never an error;
on SSR success the returned fragment merged with template-data is used with
the SSR template. -/
theorem ssr_silent_fallback (ssr : SsrOutcome) (td : List (String × J))
    (data : String) :
    (ssr.isFailure = true →
      (build_first_load_context_and_template true ssr td data
          = build_first_load_context_and_template false ssr td data
        ∧ build_first_load_context_and_template true ssr td data
          = (dictUpdate [("page", J.jstr data)] td, "inertia.html")))
    ∧ (∀ ctx, ssr = SsrOutcome.ok ctx →
        build_first_load_context_and_template true ssr td data
          = (dictUpdate ctx td, "inertia_ssr.html")) := by
  constructor
  · intro hf
    cases ssr with
    | ok ctx => simp [SsrOutcome.isFailure] at hf
    | networkError => exact ⟨rfl, rfl⟩
    | httpErrorStatus code => exact ⟨rfl, rfl⟩
    | malformedBody => exact ⟨rfl, rfl⟩
  · rintro ctx rfl
    rfl

/-- C9 amended witness: a network error falls back to the client context and
template. -/
theorem ssr_silent_fallback_witness :
    build_first_load_context_and_template true SsrOutcome.networkError
        [] "d"
      = (dictUpdate [("page", J.jstr "d")] [], "inertia.html") :=
  ((ssr_silent_fallback SsrOutcome.networkError [] "d").1 rfl).2

/-- C10 (implicit): the merge prop list is computed from the handler props
and the reset header alone, independent of the inclusion filter, so on a
first load a Deferred prop with its merge flag set and not reset appears in
the page mergeProps while its key is dropped from the page props as
ignore-on-first-load. -/
theorem merge_list_independent_of_filter (env : Nat → PVal) (hs : Headers)
    (component url version : String) (enc : Bool) (shared props : Props)
    (k : String) (p : PVal) (g : String)
    (hnd : (props.map Prod.fst).Nodup)
    (hmem : (k, PVal.deferredP p g true) ∈ props)
    (hpart : is_a_partial_render hs component = false)
    (hreset : (reset_keys hs).contains k = false) :
    (∃ l, (build_page_data env hs component url version enc shared props).mergeProps
        = some l ∧ k ∈ l)
    ∧ (∀ v, (k, v) ∉
        (build_page_data env hs component url version enc shared props).props) := by
  have hall := dictUpdate_value shared props k (PVal.deferredP p g true) hnd hmem
  constructor
  · have hk : k ∈ build_merge_props hs props := by
      unfold build_merge_props
      refine List.mem_map.mpr ⟨(k, PVal.deferredP p g true),
        List.mem_filter.mpr ⟨hmem, ?_⟩, rfl⟩
      simp only [declaresMerge, hreset, Bool.not_false, Bool.and_true]
    have hne : build_merge_props hs props ≠ [] := by
      intro h0
      rw [h0] at hk
      cases hk
    refine ⟨build_merge_props hs props, ?_, hk⟩
    simp only [build_page_data]
    obtain ⟨a, t, hat⟩ := List.exists_cons_of_ne_nil hne
    rw [hat]
    rfl
  · intro v hv
    have hv' : (k, v) ∈ build_props env hs component shared props := hv
    unfold build_props at hv'
    obtain ⟨v0, hv0⟩ := mem_transformEntries_fst env hv'
    rw [props_filter, List.mem_filter] at hv0
    obtain ⟨hvmem, hpred⟩ := hv0
    have hveq := hall.1 v0 hvmem
    rw [hveq] at hpred
    simp [hpart, isIgnoreOnFirstLoad] at hpred

/-- C10 witness: a deferred-with-merge prop on a first load is listed in
mergeProps while dropped from the built props. -/
theorem merge_list_independent_of_filter_witness :
    ∃ l, (build_page_data (fun _ => PVal.atom JScalar.snull) [] "C" "u" "v"
        false [] [("a", PVal.deferredP (PVal.atom JScalar.snull) "default"
          true)]).mergeProps = some l ∧ "a" ∈ l :=
  (merge_list_independent_of_filter (fun _ => PVal.atom JScalar.snull) []
    "C" "u" "v" false []
    [("a", PVal.deferredP (PVal.atom JScalar.snull) "default" true)]
    "a" (PVal.atom JScalar.snull) "default"
    (by decide) (by simp) (by decide) (by decide)).1

/-- C8: evaluation at a concrete request carrying the X-Inertia marker: the
status passes through unchanged and the Vary, X-Inertia and Content-Type
headers are emitted as specified, but the body is the framework JSON
response's re-encoding of the already-encoded page JSON string — a JSON
string literal — not the serialisation of the Page Object itself. -/
theorem json_body_double_encoded :
    ((inertia_json_response (fun _ => PVal.atom JScalar.snull)
        [("X-Inertia", "true")] "c" "u" "v" false [] [] 200 []).map
        (fun r => (r.status_code, dget r.headers "X-Inertia",
          dget r.headers "Vary", dget r.headers "Content-Type")))
      = some (200, some "true", some "X-Inertia", some "application/json")
    ∧ ((inertia_json_response (fun _ => PVal.atom JScalar.snull)
        [("X-Inertia", "true")] "c" "u" "v" false [] [] 200 []).map
        (fun r => r.body))
      = some (jsonResponseRender (J.jstr (json_encode (J.jobj
          [("component", J.jstr "c"), ("props", J.jobj []),
           ("url", J.jstr "u"), ("version", J.jstr "v"),
           ("encryptHistory", J.jbool false),
           ("clearHistory", J.jbool false)]))))
    ∧ ((inertia_json_response (fun _ => PVal.atom JScalar.snull)
        [("X-Inertia", "true")] "c" "u" "v" false [] [] 200 []).map
        (fun r => r.body))
      ≠ some (json_encode (J.jobj
          [("component", J.jstr "c"), ("props", J.jobj []),
           ("url", J.jstr "u"), ("version", J.jstr "v"),
           ("encryptHistory", J.jbool false),
           ("clearHistory", J.jbool false)])) := by
  refine ⟨rfl, rfl, ?_⟩
  decide
